import Mathlib

/-
Shallow embedding of the integrity indexing/verification core of
verify_integrity.py: the files table, the per-file index step, the
per-file verify step with hash-first reconciliation, and the end-of-run
missing-record sweep.  Paths are modelled as canonical strings; the
stat()/compute_hash() outcomes a file would produce are carried on the
file itself (error = the OSError message).  Path predicates that the OS
decides (Path.relative_to, Path.exists, Path.suffix.lower) are passed in
as functions.
-/

namespace VerifyIntegrity

/-- Scalar values appearing in JSON report detail entries. -/
inductive JVal where
  | s (v : String)
  | n (v : Int)
deriving DecidableEq, Repr

/-- A detail entry: an ordered field list mirroring a Python dict literal. -/
abbrev Entry := List (String × JVal)

/-- One row of the files table (schema created in connect_database). -/
structure FileRecord where
  path : String
  filename : String
  size : Int
  mtime_ns : Int
  hash : String
  hash_algo : String
  last_seen : Int
deriving DecidableEq, Repr

/-- SELECT ... FROM files WHERE path equals the argument: path is the
primary key, so at most one row; first match in row order. -/
def selectByPath (store : List FileRecord) (p : String) : Option FileRecord :=
  match store with
  | [] => none
  | r :: rest => if r.path == p then some r else selectByPath rest p

/-- SELECT ... FROM files WHERE hash equals the argument: all matching
rows, in row order. -/
def selectByHash (store : List FileRecord) (h : String) : List FileRecord :=
  store.filter (fun r => r.hash == h)

/-- UPDATE files SET last_seen where path equals the argument. -/
def touchLastSeen (store : List FileRecord) (p : String) (t : Int) : List FileRecord :=
  store.map (fun r => if r.path == p then { r with last_seen := t } else r)

/-- INSERT ... ON CONFLICT(path) DO UPDATE: replace the row carrying this
primary key, else append a new row. -/
def upsert (store : List FileRecord) (r : FileRecord) : List FileRecord :=
  match store with
  | [] => [r]
  | q :: rest => if q.path == r.path then r :: rest else q :: upsert rest r

/-- The single supported digest tag (DEFAULT_HASH_ALGO in the source). -/
def DEFAULT_HASH_ALGO : String := "sha256"

/-- A file met by the walk: its path, its name, and the outcomes stat()
and compute_hash() would give on it (size and mtime_ns on success). -/
structure FsFile where
  path : String
  filename : String
  statResult : Except String (Int × Int)
  hashResult : Except String String
deriving Repr

/-- Run environment shared by index_files and verify_files: the
normalized exclusion set, the resolved db/report self-exclusion paths,
whether a report (hence detail capture) was requested, and the function
computing a path's lowercased suffix. -/
structure Env where
  excludeExts : List String
  excludedPaths : List String
  includeDetails : Bool
  suffixLower : String → String

/-- Append an entry when detail capture is on (list is None otherwise). -/
def appendIf (b : Bool) (l : List Entry) (e : Entry) : List Entry :=
  if b then l ++ [e] else l

/-- Detail entry for a per-file stat/hash error. -/
def errorEntry (p e : String) : Entry :=
  [("path", .s p), ("error", .s e)]

/-- Detail entry appended to added during index. -/
def addedEntry (p : String) (size mt : Int) (h : String) : Entry :=
  [("path", .s p), ("size", .n size), ("mtime_ns", .n mt), ("hash", .s h)]

/-- Detail entry appended to updated during index. -/
def updatedEntry (p : String) (size mt : Int) (h prev : String) : Entry :=
  [("path", .s p), ("size", .n size), ("mtime_ns", .n mt), ("hash", .s h),
   ("previous_hash", .s prev)]

/-- Detail entry appended to mismatched during verify. -/
def mismatchedEntry (p : String) (size mt : Int) (exp act : String) : Entry :=
  [("path", .s p), ("size", .n size), ("mtime_ns", .n mt),
   ("expected_hash", .s exp), ("actual_hash", .s act)]

/-- Detail entry appended to untracked during verify. -/
def untrackedEntry (p : String) (size mt : Int) : Entry :=
  [("path", .s p), ("size", .n size), ("mtime_ns", .n mt)]

/-- Detail entry appended to missing during verify. -/
def missingEntry (p : String) : Entry :=
  [("path", .s p)]

/-- Counters of an index run. -/
structure IndexStats where
  scanned : Nat
  excluded : Nat
  hashed_new : Nat
  hashed_updated : Nat
  unchanged : Nat
  errors : Nat
deriving DecidableEq, Repr

/-- Mutable state of an index run: counters, the store, detail lists. -/
structure IndexState where
  stats : IndexStats
  store : List FileRecord
  added : List Entry
  updated : List Entry
  errors : List Entry
deriving DecidableEq, Repr

/-- Tail of the index step once the metadata fingerprint differs (or no
record exists): hash the file, classify new or updated, upsert the row. -/
def indexHashBranch (env : Env) (runStarted : Int) (s : IndexState) (f : FsFile)
    (size mtime_ns : Int) (existing : Option FileRecord) : IndexState :=
  match f.hashResult with
  | .error e =>
      { s with stats := { s.stats with errors := s.stats.errors + 1 },
               errors := appendIf env.includeDetails s.errors (errorEntry f.path e) }
  | .ok digest =>
      let s :=
        match existing with
        | some r =>
            { s with stats := { s.stats with hashed_updated := s.stats.hashed_updated + 1 },
                     updated := appendIf env.includeDetails s.updated
                       (updatedEntry f.path size mtime_ns digest r.hash) }
        | none =>
            { s with stats := { s.stats with hashed_new := s.stats.hashed_new + 1 },
                     added := appendIf env.includeDetails s.added
                       (addedEntry f.path size mtime_ns digest) }
      let newRow : FileRecord :=
        { path := f.path, filename := f.filename, size := size, mtime_ns := mtime_ns,
          hash := digest, hash_algo := DEFAULT_HASH_ALGO, last_seen := runStarted }
      { s with store := upsert s.store newRow }

/-- Per-file body of the index loop in index_files. -/
def indexStep (env : Env) (runStarted : Int) (s : IndexState) (f : FsFile) : IndexState :=
  if env.excludedPaths.contains f.path then
    { s with stats := { s.stats with excluded := s.stats.excluded + 1 } }
  else if env.excludeExts.contains (env.suffixLower f.path) then
    { s with stats := { s.stats with excluded := s.stats.excluded + 1 } }
  else
    let s := { s with stats := { s.stats with scanned := s.stats.scanned + 1 } }
    match f.statResult with
    | .error e =>
        { s with stats := { s.stats with errors := s.stats.errors + 1 },
                 errors := appendIf env.includeDetails s.errors (errorEntry f.path e) }
    | .ok (size, mtime_ns) =>
        match selectByPath s.store f.path with
        | some r =>
            if r.size == size && r.mtime_ns == mtime_ns then
              { s with store := touchLastSeen s.store f.path runStarted,
                       stats := { s.stats with unchanged := s.stats.unchanged + 1 } }
            else
              indexHashBranch env runStarted s f size mtime_ns (some r)
        | none => indexHashBranch env runStarted s f size mtime_ns none

/-- Initial index state over a pre-existing store. -/
def initIndexState (store : List FileRecord) : IndexState :=
  { stats := { scanned := 0, excluded := 0, hashed_new := 0, hashed_updated := 0,
               unchanged := 0, errors := 0 },
    store := store, added := [], updated := [], errors := [] }

/-- Final state of an index run: fold the per-file step over the walk. -/
def index_files (env : Env) (runStarted : Int) (store : List FileRecord)
    (fs : List FsFile) : IndexState :=
  fs.foldl (indexStep env runStarted) (initIndexState store)

/-- Counters of a verify run. -/
structure VerifyStats where
  scanned : Nat
  excluded : Nat
  verified : Nat
  mismatched : Nat
  missing : Nat
  untracked : Nat
  errors : Nat
  db_entries : Nat
deriving DecidableEq, Repr

/-- Mutable state of a verify run: counters, matched hash/path sets
(kept in insertion order), detail lists.  The store itself is opened
read-only and is threaded as an immutable argument, not state. -/
structure VerifyState where
  stats : VerifyStats
  verifiedHashes : List String
  verifiedPaths : List String
  mismatched : List Entry
  missing : List Entry
  untracked : List Entry
  errors : List Entry
deriving DecidableEq, Repr

/-- Among the rows found by hash, prefer one whose stored filename equals
the current filename, else the first row; none when no row matched. -/
def pickRow (rows : List FileRecord) (filename : String) : Option FileRecord :=
  match rows with
  | [] => none
  | c0 :: _ => some ((rows.find? (fun c => c.filename == filename)).getD c0)

/-- Shared tail of the per-file verify classification: a record whose
hash_algo is not the supported tag is rejected as a per-file error,
otherwise the file counts as verified. -/
def verifyAlgoCheck (env : Env) (s : VerifyState) (p : String) (row : FileRecord) :
    VerifyState :=
  if row.hash_algo != DEFAULT_HASH_ALGO then
    { s with stats := { s.stats with errors := s.stats.errors + 1 },
             errors := appendIf env.includeDetails s.errors
               (errorEntry p ("Unsupported hash algorithm: " ++ row.hash_algo)) }
  else
    { s with stats := { s.stats with verified := s.stats.verified + 1 } }

/-- Per-file body of the verify loop in verify_files: hash first, match
by hash (recording the matched hash and chosen record path), else fall
back to the record at the exact path, else untracked. -/
def verifyStep (env : Env) (store : List FileRecord) (s : VerifyState) (f : FsFile) :
    VerifyState :=
  if env.excludedPaths.contains f.path then
    { s with stats := { s.stats with excluded := s.stats.excluded + 1 } }
  else if env.excludeExts.contains (env.suffixLower f.path) then
    { s with stats := { s.stats with excluded := s.stats.excluded + 1 } }
  else
    let s := { s with stats := { s.stats with scanned := s.stats.scanned + 1 } }
    match f.statResult with
    | .error e =>
        { s with stats := { s.stats with errors := s.stats.errors + 1 },
                 errors := appendIf env.includeDetails s.errors (errorEntry f.path e) }
    | .ok (size, mtime_ns) =>
        match f.hashResult with
        | .error e =>
            { s with stats := { s.stats with errors := s.stats.errors + 1 },
                     errors := appendIf env.includeDetails s.errors (errorEntry f.path e) }
        | .ok digest =>
            match pickRow (selectByHash store digest) f.filename with
            | some row =>
                let s := { s with verifiedHashes := s.verifiedHashes ++ [digest],
                                  verifiedPaths := s.verifiedPaths ++ [row.path] }
                verifyAlgoCheck env s f.path row
            | none =>
                match selectByPath store f.path with
                | some row =>
                    let s := { s with verifiedPaths := s.verifiedPaths ++ [f.path] }
                    if row.hash != digest then
                      { s with stats := { s.stats with mismatched := s.stats.mismatched + 1 },
                               mismatched := appendIf env.includeDetails s.mismatched
                                 (mismatchedEntry f.path size mtime_ns row.hash digest) }
                    else
                      verifyAlgoCheck env s f.path row
                | none =>
                    { s with stats := { s.stats with untracked := s.stats.untracked + 1 },
                             untracked := appendIf env.includeDetails s.untracked
                               (untrackedEntry f.path size mtime_ns) }

/-- One record of the end-of-run missing sweep over SELECT path, hash
FROM files.  The underRoot and onDisk predicates stand for the OS facts
Path.relative_to(root) succeeding and Path.exists(). -/
def missingStep (env : Env) (underRoot onDisk : String → Bool) (s : VerifyState)
    (r : FileRecord) : VerifyState :=
  if !underRoot r.path then s
  else if env.excludeExts.contains (env.suffixLower r.path) then s
  else if env.excludedPaths.contains r.path then s
  else if s.verifiedHashes.contains r.hash then s
  else if s.verifiedPaths.contains r.path then s
  else if onDisk r.path then s
  else
    { s with stats := { s.stats with missing := s.stats.missing + 1 },
             missing := appendIf env.includeDetails s.missing (missingEntry r.path) }

/-- End-of-run sweep over all stored records. -/
def missingSweep (env : Env) (underRoot onDisk : String → Bool)
    (store : List FileRecord) (s : VerifyState) : VerifyState :=
  store.foldl (missingStep env underRoot onDisk) s

/-- Initial verify state; db_entries is the row count read up front. -/
def initVerifyState (dbEntries : Nat) : VerifyState :=
  { stats := { scanned := 0, excluded := 0, verified := 0, mismatched := 0,
               missing := 0, untracked := 0, errors := 0, db_entries := dbEntries },
    verifiedHashes := [], verifiedPaths := [],
    mismatched := [], missing := [], untracked := [], errors := [] }

/-- Final state of a verify run: fold the per-file step over the walk,
then run the missing-record sweep over the store. -/
def verify_files (env : Env) (underRoot onDisk : String → Bool)
    (store : List FileRecord) (fs : List FsFile) : VerifyState :=
  missingSweep env underRoot onDisk store
    (fs.foldl (verifyStep env store) (initVerifyState store.length))

/-- All record fields except last_seen, for stating that an operation
leaves size, mtime, hash and hash_algo untouched. -/
def coreFields (r : FileRecord) : String × String × Int × Int × String × String :=
  (r.path, r.filename, r.size, r.mtime_ns, r.hash, r.hash_algo)

/-- The condition under which the sweep counts a record as missing. -/
def missCond (env : Env) (underRoot onDisk : String → Bool) (s : VerifyState)
    (r : FileRecord) : Bool :=
  underRoot r.path && !env.excludeExts.contains (env.suffixLower r.path)
    && !env.excludedPaths.contains r.path && !s.verifiedHashes.contains r.hash
    && !s.verifiedPaths.contains r.path && !onDisk r.path

/-- True when stat() would succeed on this file. -/
def isOkStat (f : FsFile) : Bool :=
  match f.statResult with
  | .ok _ => true
  | .error _ => false

/-- True when compute_hash() would succeed on this file. -/
def isOkHash (f : FsFile) : Bool :=
  match f.hashResult with
  | .ok _ => true
  | .error _ => false

/-- The store holds a record at this file's exact path whose stored size
and mtime both equal the file's current stat values. -/
def recordMatches (store : List FileRecord) (f : FsFile) : Prop :=
  ∀ sz mt : Int, f.statResult = .ok (sz, mt) →
    ∃ r, selectByPath store f.path = some r ∧ r.size = sz ∧ r.mtime_ns = mt

end VerifyIntegrity

namespace VerifyIntegrity

lemma selectByPath_path {l : List FileRecord} {p : String} {r : FileRecord}
    (h : selectByPath l p = some r) : r.path = p := by
  induction l with
  | nil => simp [selectByPath] at h
  | cons a rest ih =>
      by_cases ha : a.path = p
      · simp [selectByPath, ha] at h
        subst h
        exact ha
      · simp [selectByPath, ha] at h
        exact ih h

lemma selectByPath_mem {l : List FileRecord} {p : String} {r : FileRecord}
    (h : selectByPath l p = some r) : r ∈ l := by
  induction l with
  | nil => simp [selectByPath] at h
  | cons a rest ih =>
      by_cases ha : a.path = p
      · simp [selectByPath, ha] at h
        simp [h]
      · simp [selectByPath, ha] at h
        exact List.mem_cons_of_mem a (ih h)

lemma touchLastSeen_selectByPath_other {l : List FileRecord} {q p : String} (t : Int)
    (h : p ≠ q) : selectByPath (touchLastSeen l q t) p = selectByPath l p := by
  have hqp : ¬q = p := fun hc => h hc.symm
  induction l with
  | nil => rfl
  | cons a rest ih =>
      by_cases hq : a.path = q
      · simp [touchLastSeen, selectByPath, hq, hqp] at ih ⊢
        simpa [touchLastSeen] using ih
      · by_cases hp : a.path = p
        · simp [touchLastSeen, selectByPath, hq, hp, h]
        · simp [touchLastSeen, selectByPath, hq, hp] at ih ⊢
          simpa [touchLastSeen] using ih

lemma touchLastSeen_selectByPath_self {l : List FileRecord} (q : String) (t : Int) :
    selectByPath (touchLastSeen l q t) q
      = (selectByPath l q).map (fun r => { r with last_seen := t }) := by
  induction l with
  | nil => rfl
  | cons a rest ih =>
      by_cases hq : a.path = q
      · simp [touchLastSeen, selectByPath, hq]
      · simp [touchLastSeen, selectByPath, hq] at ih ⊢
        simpa [touchLastSeen] using ih

lemma touchLastSeen_map_coreFields (l : List FileRecord) (q : String) (t : Int) :
    (touchLastSeen l q t).map coreFields = l.map coreFields := by
  induction l with
  | nil => rfl
  | cons a rest ih =>
      have hc : coreFields (if (a.path == q) = true then { a with last_seen := t } else a)
          = coreFields a := by
        split <;> rfl
      simp only [touchLastSeen, List.map_cons] at ih ⊢
      rw [hc, ih]

lemma upsert_selectByPath_self (l : List FileRecord) (r : FileRecord) :
    selectByPath (upsert l r) r.path = some r := by
  induction l with
  | nil => simp [upsert, selectByPath]
  | cons a rest ih =>
      by_cases ha : a.path = r.path
      · simp [upsert, selectByPath, ha]
      · simp [upsert, selectByPath, ha, ih]

lemma upsert_selectByPath_other {p : String} (l : List FileRecord) (r : FileRecord)
    (h : p ≠ r.path) : selectByPath (upsert l r) p = selectByPath l p := by
  have hrp : ¬r.path = p := fun hc => h hc.symm
  induction l with
  | nil => simp [upsert, selectByPath, hrp]
  | cons a rest ih =>
      by_cases ha : a.path = r.path
      · have hap : ¬a.path = p := fun hc => hrp (ha ▸ hc)
        simp [upsert, selectByPath, ha, hrp, hap]
      · by_cases hb : a.path = p
        · simp [upsert, selectByPath, ha, hb, h]
        · simp [upsert, selectByPath, ha, hb, ih]

end VerifyIntegrity

namespace VerifyIntegrity

/-- Claim C10: a walked file whose path is the resolved store-database
path or the requested report path is counted under excluded in both the
index and the verify step, and nothing else in the state changes. -/
theorem self_exclusion (env : Env) (t : Int) (s : IndexState)
    (store : List FileRecord) (s' : VerifyState) (f : FsFile)
    (h : env.excludedPaths.contains f.path = true) :
    indexStep env t s f
        = { s with stats := { s.stats with excluded := s.stats.excluded + 1 } }
      ∧ verifyStep env store s' f
        = { s' with stats := { s'.stats with excluded := s'.stats.excluded + 1 } } := by
  have h' : f.path ∈ env.excludedPaths := by simpa using h
  constructor <;> simp [indexStep, verifyStep, h']

theorem self_exclusion_witness :
    (([""].contains "") = true)
    ∧ indexStep ⟨[], [""], true, fun _ => ""⟩ 0 (initIndexState []) ⟨"", "", .ok (0, 0), .ok ""⟩
        = { initIndexState [] with stats := { (initIndexState []).stats with excluded := 1 } } := by
  refine ⟨by decide, ?_⟩
  have h := self_exclusion ⟨[], [""], true, fun _ => ""⟩ 0 (initIndexState [])
    [] (initVerifyState 0) ⟨"", "", .ok (0, 0), .ok ""⟩ (by decide)
  exact h.1

/-- Claim C2: when a stored record exists at the walked file's exact path
and its size and mtime both equal the current stat, the index step counts
the file unchanged, only refreshes last_seen in the store, and does not
depend on the file's hash at all. -/
theorem index_metadata_shortcut (env : Env) (t : Int) (s : IndexState) (f : FsFile)
    (size mt : Int) (r : FileRecord)
    (h1 : env.excludedPaths.contains f.path = false)
    (h2 : env.excludeExts.contains (env.suffixLower f.path) = false)
    (h3 : f.statResult = .ok (size, mt))
    (h4 : selectByPath s.store f.path = some r)
    (h5 : r.size = size) (h6 : r.mtime_ns = mt) :
    (indexStep env t s f).stats.unchanged = s.stats.unchanged + 1
    ∧ (indexStep env t s f).stats.scanned = s.stats.scanned + 1
    ∧ (indexStep env t s f).stats.hashed_new = s.stats.hashed_new
    ∧ (indexStep env t s f).stats.hashed_updated = s.stats.hashed_updated
    ∧ (indexStep env t s f).stats.errors = s.stats.errors
    ∧ (indexStep env t s f).store = touchLastSeen s.store f.path t
    ∧ ((indexStep env t s f).store).map coreFields = s.store.map coreFields
    ∧ (∀ hr, indexStep env t s { f with hashResult := hr } = indexStep env t s f) := by
  have h1' : f.path ∉ env.excludedPaths := by simpa using h1
  have h2' : env.suffixLower f.path ∉ env.excludeExts := by simpa using h2
  refine ⟨?_, ?_, ?_, ?_, ?_, ?_, ?_, ?_⟩ <;>
    simp [indexStep, h1', h2', h3, h4, h5, h6, touchLastSeen_map_coreFields]

/-- Claim C3: when the computed digest matches no stored hash but a record
exists at the exact current path with a different stored hash, the verify
step counts the file mismatched and appends a detail entry carrying the
stored hash as expected_hash and the computed digest as actual_hash. -/
theorem verify_mismatch_detection (env : Env) (store : List FileRecord)
    (s : VerifyState) (f : FsFile) (size mt : Int) (digest : String) (r : FileRecord)
    (h1 : env.excludedPaths.contains f.path = false)
    (h2 : env.excludeExts.contains (env.suffixLower f.path) = false)
    (h3 : f.statResult = .ok (size, mt))
    (h4 : f.hashResult = .ok digest)
    (h5 : selectByHash store digest = [])
    (h6 : selectByPath store f.path = some r)
    (h7 : r.hash ≠ digest)
    (h8 : env.includeDetails = true) :
    (verifyStep env store s f).stats.mismatched = s.stats.mismatched + 1
    ∧ (verifyStep env store s f).mismatched
        = s.mismatched ++ [[("path", JVal.s f.path), ("size", JVal.n size),
            ("mtime_ns", JVal.n mt), ("expected_hash", JVal.s r.hash),
            ("actual_hash", JVal.s digest)]]
    ∧ (verifyStep env store s f).stats.verified = s.stats.verified := by
  have h1' : f.path ∉ env.excludedPaths := by simpa using h1
  have h2' : env.suffixLower f.path ∉ env.excludeExts := by simpa using h2
  refine ⟨?_, ?_, ?_⟩ <;>
    simp [verifyStep, h1', h2', h3, h4, h5, h6, h7, h8, pickRow, appendIf, mismatchedEntry]

lemma verifyAlgoCheck_stats_mismatched (env : Env) (s : VerifyState) (p : String)
    (row : FileRecord) :
    (verifyAlgoCheck env s p row).stats.mismatched = s.stats.mismatched := by
  unfold verifyAlgoCheck
  split <;> rfl

lemma verifyAlgoCheck_list_mismatched (env : Env) (s : VerifyState) (p : String)
    (row : FileRecord) :
    (verifyAlgoCheck env s p row).mismatched = s.mismatched := by
  unfold verifyAlgoCheck
  split <;> rfl

/-- Claim C7: a record stored at the walked file's exact path with a hash
equal to the computed digest is always found by the hash-first lookup, so
the path-fallback comparison never runs with an equal hash and the
mismatched classification cannot fire for such a file. -/
theorem path_fallback_needs_differing_hash (env : Env) (store : List FileRecord)
    (s : VerifyState) (f : FsFile) (digest : String) (r : FileRecord)
    (h1 : f.hashResult = .ok digest)
    (h2 : selectByPath store f.path = some r)
    (h3 : r.hash = digest) :
    selectByHash store digest ≠ []
    ∧ (verifyStep env store s f).stats.mismatched = s.stats.mismatched
    ∧ (verifyStep env store s f).mismatched = s.mismatched := by
  have hmem : r ∈ store := selectByPath_mem h2
  have hne : selectByHash store digest ≠ [] := by
    have : r ∈ selectByHash store digest := by
      simp [selectByHash, List.mem_filter, hmem, h3]
    exact List.ne_nil_of_mem this
  refine ⟨hne, ?_⟩
  obtain ⟨c0, rest, hcons⟩ := List.exists_cons_of_ne_nil hne
  by_cases hc1 : f.path ∈ env.excludedPaths
  · simp [verifyStep, hc1]
  · by_cases hc2 : env.suffixLower f.path ∈ env.excludeExts
    · simp [verifyStep, hc1, hc2]
    · cases hst : f.statResult with
      | error e => simp [verifyStep, hc1, hc2, hst]
      | ok pair =>
          obtain ⟨sz, mt⟩ := pair
          simp [verifyStep, hc1, hc2, hst, h1, hcons, pickRow,
            verifyAlgoCheck_stats_mismatched, verifyAlgoCheck_list_mismatched]

end VerifyIntegrity

namespace VerifyIntegrity

theorem index_metadata_shortcut_witness :
    (indexStep ⟨[], [], true, fun _ => ""⟩ 7
        (initIndexState [⟨"/r/a.txt", "a.txt", 5, 100, "h1", "sha256", 1⟩])
        ⟨"/r/a.txt", "a.txt", .ok (5, 100), .ok "h1"⟩).stats.unchanged
      = (initIndexState [⟨"/r/a.txt", "a.txt", 5, 100, "h1", "sha256", 1⟩]).stats.unchanged + 1 :=
  (index_metadata_shortcut ⟨[], [], true, fun _ => ""⟩ 7
    (initIndexState [⟨"/r/a.txt", "a.txt", 5, 100, "h1", "sha256", 1⟩])
    ⟨"/r/a.txt", "a.txt", .ok (5, 100), .ok "h1"⟩ 5 100
    ⟨"/r/a.txt", "a.txt", 5, 100, "h1", "sha256", 1⟩
    (by decide) (by decide) rfl (by decide) rfl rfl).1

theorem verify_mismatch_detection_witness :
    (verifyStep ⟨[], [], true, fun _ => ""⟩
        [⟨"/r/a.txt", "a.txt", 5, 100, "h1", "sha256", 1⟩]
        (initVerifyState 1) ⟨"/r/a.txt", "a.txt", .ok (6, 200), .ok "h2"⟩).stats.mismatched
      = (initVerifyState 1).stats.mismatched + 1 :=
  (verify_mismatch_detection ⟨[], [], true, fun _ => ""⟩
    [⟨"/r/a.txt", "a.txt", 5, 100, "h1", "sha256", 1⟩]
    (initVerifyState 1) ⟨"/r/a.txt", "a.txt", .ok (6, 200), .ok "h2"⟩ 6 200 "h2"
    ⟨"/r/a.txt", "a.txt", 5, 100, "h1", "sha256", 1⟩
    (by decide) (by decide) rfl rfl (by decide) (by decide) (by decide) rfl).1

theorem path_fallback_needs_differing_hash_witness :
    selectByHash [⟨"/r/a.txt", "a.txt", 5, 100, "h1", "sha256", 1⟩] "h1" ≠ [] :=
  (path_fallback_needs_differing_hash ⟨[], [], true, fun _ => ""⟩
    [⟨"/r/a.txt", "a.txt", 5, 100, "h1", "sha256", 1⟩]
    (initVerifyState 1) ⟨"/r/a.txt", "a.txt", .ok (5, 100), .ok "h1"⟩ "h1"
    ⟨"/r/a.txt", "a.txt", 5, 100, "h1", "sha256", 1⟩
    rfl (by decide) rfl).1

/-- Claim C5 (amended): a scanned file whose record was matched by the
hash-first lookup and carries a hash_algo tag other than the supported
one is counted under errors, and under neither verified nor mismatched. -/
theorem legacy_algo_rejected_on_hash_match (env : Env) (store : List FileRecord)
    (s : VerifyState) (f : FsFile) (size mt : Int) (digest : String) (row : FileRecord)
    (h1 : env.excludedPaths.contains f.path = false)
    (h2 : env.excludeExts.contains (env.suffixLower f.path) = false)
    (h3 : f.statResult = .ok (size, mt))
    (h4 : f.hashResult = .ok digest)
    (h5 : pickRow (selectByHash store digest) f.filename = some row)
    (h6 : row.hash_algo ≠ DEFAULT_HASH_ALGO) :
    (verifyStep env store s f).stats.errors = s.stats.errors + 1
    ∧ (verifyStep env store s f).stats.verified = s.stats.verified
    ∧ (verifyStep env store s f).stats.mismatched = s.stats.mismatched := by
  have h1' : f.path ∉ env.excludedPaths := by simpa using h1
  have h2' : env.suffixLower f.path ∉ env.excludeExts := by simpa using h2
  refine ⟨?_, ?_, ?_⟩ <;>
    simp [verifyStep, h1', h2', h3, h4, h5, verifyAlgoCheck, h6]

theorem legacy_algo_rejected_on_hash_match_witness :
    (verifyStep ⟨[], [], true, fun _ => ""⟩
        [⟨"/r/a.txt", "a.txt", 5, 100, "h1", "md5", 1⟩]
        (initVerifyState 1) ⟨"/r/a.txt", "a.txt", .ok (5, 100), .ok "h1"⟩).stats.errors
      = (initVerifyState 1).stats.errors + 1 :=
  (legacy_algo_rejected_on_hash_match ⟨[], [], true, fun _ => ""⟩
    [⟨"/r/a.txt", "a.txt", 5, 100, "h1", "md5", 1⟩]
    (initVerifyState 1) ⟨"/r/a.txt", "a.txt", .ok (5, 100), .ok "h1"⟩ 5 100 "h1"
    ⟨"/r/a.txt", "a.txt", 5, 100, "h1", "md5", 1⟩
    (by decide) (by decide) rfl rfl (by decide) (by decide)).1

/-- Claim C5 (counterexample): a legacy-algorithm record matched only by
the path fallback with a differing stored hash is counted mismatched, not
as an error, contradicting the claim that every scanned file whose
matched record carries a foreign hash_algo lands under errors. -/
theorem legacy_algo_mismatch_cex :
    (selectByPath [⟨"/r/a.txt", "a.txt", 5, 100, "deadbeef", "md5", 1⟩] "/r/a.txt"
        = some ⟨"/r/a.txt", "a.txt", 5, 100, "deadbeef", "md5", 1⟩)
    ∧ "md5" ≠ DEFAULT_HASH_ALGO
    ∧ (verify_files ⟨[], [], true, fun _ => ""⟩ (fun _ => true) (fun p => p == "/r/a.txt")
        [⟨"/r/a.txt", "a.txt", 5, 100, "deadbeef", "md5", 1⟩]
        [⟨"/r/a.txt", "a.txt", .ok (5, 200), .ok "cafe"⟩]).stats.errors = 0
    ∧ (verify_files ⟨[], [], true, fun _ => ""⟩ (fun _ => true) (fun p => p == "/r/a.txt")
        [⟨"/r/a.txt", "a.txt", 5, 100, "deadbeef", "md5", 1⟩]
        [⟨"/r/a.txt", "a.txt", .ok (5, 200), .ok "cafe"⟩]).stats.mismatched = 1 := by
  refine ⟨by decide, by decide, by decide, by decide⟩

/-- Claim C9 (amended): every detail entry that carries the file's
modification time does so under the field name mtime_ns, and no entry
carries a field named mtime. -/
theorem detail_entries_use_mtime_ns (p : String) (size mt : Int) (h prev exp act : String) :
    (addedEntry p size mt h).lookup "mtime_ns" = some (JVal.n mt)
    ∧ (addedEntry p size mt h).lookup "mtime" = none
    ∧ (updatedEntry p size mt h prev).lookup "mtime_ns" = some (JVal.n mt)
    ∧ (updatedEntry p size mt h prev).lookup "mtime" = none
    ∧ (mismatchedEntry p size mt exp act).lookup "mtime_ns" = some (JVal.n mt)
    ∧ (mismatchedEntry p size mt exp act).lookup "mtime" = none
    ∧ (untrackedEntry p size mt).lookup "mtime_ns" = some (JVal.n mt)
    ∧ (untrackedEntry p size mt).lookup "mtime" = none := by
  refine ⟨?_, ?_, ?_, ?_, ?_, ?_, ?_, ?_⟩ <;>
    simp [addedEntry, updatedEntry, mismatchedEntry, untrackedEntry, List.lookup]

/-- Claim C9 (counterexample): the added detail entry produced by an
index run stores the modification time under mtime_ns and has no field
named mtime, contradicting the claimed field name. -/
theorem report_detail_mtime_cex :
    (index_files ⟨[], [], true, fun _ => ""⟩ 0 []
        [⟨"/r/a.txt", "a.txt", .ok (5, 100), .ok "h1"⟩]).added
      = [[("path", JVal.s "/r/a.txt"), ("size", JVal.n 5),
          ("mtime_ns", JVal.n 100), ("hash", JVal.s "h1")]]
    ∧ (((index_files ⟨[], [], true, fun _ => ""⟩ 0 []
        [⟨"/r/a.txt", "a.txt", .ok (5, 100), .ok "h1"⟩]).added.headD []).lookup "mtime"
          = none) := by
  refine ⟨by decide, by decide⟩

end VerifyIntegrity

namespace VerifyIntegrity

lemma missingStep_eq (env : Env) (u e : String → Bool) (s : VerifyState) (r : FileRecord) :
    missingStep env u e s r
      = if missCond env u e s r then
          { s with stats := { s.stats with missing := s.stats.missing + 1 },
                   missing := appendIf env.includeDetails s.missing (missingEntry r.path) }
        else s := by
  unfold missingStep missCond
  cases hu : u r.path <;>
    by_cases h1 : env.excludeExts.contains (env.suffixLower r.path) <;>
    by_cases h2 : env.excludedPaths.contains r.path <;>
    by_cases h3 : s.verifiedHashes.contains r.hash <;>
    by_cases h4 : s.verifiedPaths.contains r.path <;>
    cases he : e r.path <;>
    simp_all

/-- Claim C4 (amended): after the scan phase, the sweep counts a stored
record as missing exactly when its path is under the root, its extension
is not excluded, its path is not a self-excluded db/report path, neither
its hash nor its path was matched during the scan, and it no longer
exists on disk; the missing counter and detail list grow by exactly the
records satisfying that condition. -/
theorem missing_sweep_characterization (env : Env) (u e : String → Bool)
    (store : List FileRecord) (s : VerifyState) :
    (missingSweep env u e store s).stats.missing
        = s.stats.missing + (store.filter (missCond env u e s)).length
    ∧ (missingSweep env u e store s).missing
        = s.missing ++ (if env.includeDetails then
            (store.filter (missCond env u e s)).map (fun r => missingEntry r.path)
          else []) := by
  induction store generalizing s with
  | nil =>
      constructor <;> simp [missingSweep]
  | cons r rest ih =>
      have hstep : missingSweep env u e (r :: rest) s
          = missingSweep env u e rest (missingStep env u e s r) := rfl
      rw [hstep, missingStep_eq]
      by_cases hc : missCond env u e s r = true
      · rw [if_pos hc]
        have hcongr : missCond env u e
            { s with stats := { s.stats with missing := s.stats.missing + 1 },
                     missing := appendIf env.includeDetails s.missing (missingEntry r.path) }
            = missCond env u e s := by
          funext x
          unfold missCond
          rfl
        obtain ⟨ihc, ihl⟩ := ih
          { s with stats := { s.stats with missing := s.stats.missing + 1 },
                   missing := appendIf env.includeDetails s.missing (missingEntry r.path) }
        rw [hcongr] at ihc ihl
        constructor
        · rw [ihc]
          simp [List.filter_cons, hc]
          omega
        · rw [ihl]
          cases hinc : env.includeDetails <;>
            simp [appendIf, hinc, List.filter_cons, hc]
      · rw [if_neg hc]
        obtain ⟨ihc, ihl⟩ := ih s
        constructor <;> simp [ihc, ihl, List.filter_cons, hc]

/-- Claim C4 (counterexample): a stored record at the requested report
path that lies under the root, is not extension-excluded, was never
matched during the scan, and does not exist on disk is nevertheless not
counted missing, because the sweep also skips the resolved db/report
self-excluded paths, which the claim's characterization omits. -/
theorem missing_sweep_cex :
    (List.foldl
        (verifyStep ⟨[], ["/r/report.json"], true, fun _ => ""⟩
          [⟨"/r/report.json", "report.json", 5, 100, "h9", "sha256", 1⟩])
        (initVerifyState 1) []).verifiedHashes = []
    ∧ (List.foldl
        (verifyStep ⟨[], ["/r/report.json"], true, fun _ => ""⟩
          [⟨"/r/report.json", "report.json", 5, 100, "h9", "sha256", 1⟩])
        (initVerifyState 1) []).verifiedPaths = []
    ∧ (fun _ : String => true) "/r/report.json" = true
    ∧ (([] : List String).contains ((fun _ : String => "") "/r/report.json")) = false
    ∧ (fun _ : String => false) "/r/report.json" = false
    ∧ (verify_files ⟨[], ["/r/report.json"], true, fun _ => ""⟩
        (fun _ => true) (fun _ => false)
        [⟨"/r/report.json", "report.json", 5, 100, "h9", "sha256", 1⟩] []).stats.missing = 0
    ∧ (verify_files ⟨[], ["/r/report.json"], true, fun _ => ""⟩
        (fun _ => true) (fun _ => false)
        [⟨"/r/report.json", "report.json", 5, 100, "h9", "sha256", 1⟩] []).missing = [] := by
  refine ⟨by decide, by decide, by decide, by decide, by decide, by decide, by decide⟩

end VerifyIntegrity

namespace VerifyIntegrity

lemma pickRow_singleton (c : FileRecord) (fn : String) : pickRow [c] fn = some c := by
  unfold pickRow
  cases hf : c.filename == fn <;> simp [List.find?, hf]

lemma verifyStep_hash_verified (env : Env) (store : List FileRecord)
    (s : VerifyState) (f : FsFile) (size mt : Int) (digest : String) (row : FileRecord)
    (h1 : env.excludedPaths.contains f.path = false)
    (h2 : env.excludeExts.contains (env.suffixLower f.path) = false)
    (h3 : f.statResult = .ok (size, mt))
    (h4 : f.hashResult = .ok digest)
    (h5 : pickRow (selectByHash store digest) f.filename = some row)
    (h6 : row.hash_algo = DEFAULT_HASH_ALGO) :
    verifyStep env store s f
      = { s with stats := { s.stats with scanned := s.stats.scanned + 1,
                                         verified := s.stats.verified + 1 },
                 verifiedHashes := s.verifiedHashes ++ [digest],
                 verifiedPaths := s.verifiedPaths ++ [row.path] } := by
  have h1' : f.path ∉ env.excludedPaths := by simpa using h1
  have h2' : env.suffixLower f.path ∉ env.excludeExts := by simpa using h2
  simp [verifyStep, h1', h2', h3, h4, h5, verifyAlgoCheck, h6]

/-- Claim C1: with a single stored record for content hash dg at path A
and a single walked file carrying the same bytes at path B (A deleted,
no other file or record sharing the hash), a verify run reports exactly
one verified outcome, no missing and no untracked entry; the hash-first
match records the hash and the chosen record's path, which makes the
missing sweep skip record A. -/
theorem move_tolerance_verify (env : Env) (u e : String → Bool)
    (A B rn fn dg : String) (sz0 mt0 ls sz mt : Int)
    (hAB : A ≠ B)
    (h1 : env.excludedPaths.contains B = false)
    (h2 : env.excludeExts.contains (env.suffixLower B) = false)
    (hgone : e A = false) :
    (verify_files env u e [⟨A, rn, sz0, mt0, dg, DEFAULT_HASH_ALGO, ls⟩]
        [⟨B, fn, .ok (sz, mt), .ok dg⟩]).stats.verified = 1
    ∧ (verify_files env u e [⟨A, rn, sz0, mt0, dg, DEFAULT_HASH_ALGO, ls⟩]
        [⟨B, fn, .ok (sz, mt), .ok dg⟩]).stats.missing = 0
    ∧ (verify_files env u e [⟨A, rn, sz0, mt0, dg, DEFAULT_HASH_ALGO, ls⟩]
        [⟨B, fn, .ok (sz, mt), .ok dg⟩]).stats.untracked = 0
    ∧ (verify_files env u e [⟨A, rn, sz0, mt0, dg, DEFAULT_HASH_ALGO, ls⟩]
        [⟨B, fn, .ok (sz, mt), .ok dg⟩]).stats.mismatched = 0
    ∧ (verify_files env u e [⟨A, rn, sz0, mt0, dg, DEFAULT_HASH_ALGO, ls⟩]
        [⟨B, fn, .ok (sz, mt), .ok dg⟩]).verifiedHashes = [dg]
    ∧ (verify_files env u e [⟨A, rn, sz0, mt0, dg, DEFAULT_HASH_ALGO, ls⟩]
        [⟨B, fn, .ok (sz, mt), .ok dg⟩]).verifiedPaths = [A] := by
  have h1' : B ∉ env.excludedPaths := by simpa using h1
  have h2' : env.suffixLower B ∉ env.excludeExts := by simpa using h2
  have hhash : selectByHash [⟨A, rn, sz0, mt0, dg, DEFAULT_HASH_ALGO, ls⟩] dg
      = [⟨A, rn, sz0, mt0, dg, DEFAULT_HASH_ALGO, ls⟩] := by
    simp [selectByHash]
  have hpick : pickRow
      (selectByHash [⟨A, rn, sz0, mt0, dg, DEFAULT_HASH_ALGO, ls⟩] dg) fn
      = some ⟨A, rn, sz0, mt0, dg, DEFAULT_HASH_ALGO, ls⟩ := by
    rw [hhash]
    exact pickRow_singleton _ fn
  have hscan : List.foldl
      (verifyStep env [⟨A, rn, sz0, mt0, dg, DEFAULT_HASH_ALGO, ls⟩]) (initVerifyState 1)
      [⟨B, fn, .ok (sz, mt), .ok dg⟩]
      = { stats := { scanned := 1, excluded := 0, verified := 1, mismatched := 0,
                     missing := 0, untracked := 0, errors := 0, db_entries := 1 },
          verifiedHashes := [dg], verifiedPaths := [A],
          mismatched := [], missing := [], untracked := [], errors := [] } := by
    rw [List.foldl_cons, List.foldl_nil,
      verifyStep_hash_verified env _ _ _ sz mt dg ⟨A, rn, sz0, mt0, dg, DEFAULT_HASH_ALGO, ls⟩
        h1 h2 rfl rfl hpick rfl]
    rfl
  have hrun : verify_files env u e [⟨A, rn, sz0, mt0, dg, DEFAULT_HASH_ALGO, ls⟩]
      [⟨B, fn, .ok (sz, mt), .ok dg⟩]
      = { stats := { scanned := 1, excluded := 0, verified := 1, mismatched := 0,
                     missing := 0, untracked := 0, errors := 0, db_entries := 1 },
          verifiedHashes := [dg], verifiedPaths := [A],
          mismatched := [], missing := [], untracked := [], errors := [] } := by
    unfold verify_files
    rw [show ([⟨A, rn, sz0, mt0, dg, DEFAULT_HASH_ALGO, ls⟩] : List FileRecord).length = 1
      from rfl]
    rw [hscan]
    rw [show missingSweep env u e [⟨A, rn, sz0, mt0, dg, DEFAULT_HASH_ALGO, ls⟩]
        { stats := { scanned := 1, excluded := 0, verified := 1, mismatched := 0,
                     missing := 0, untracked := 0, errors := 0, db_entries := 1 },
          verifiedHashes := [dg], verifiedPaths := [A],
          mismatched := [], missing := [], untracked := [], errors := [] }
      = missingStep env u e
        { stats := { scanned := 1, excluded := 0, verified := 1, mismatched := 0,
                     missing := 0, untracked := 0, errors := 0, db_entries := 1 },
          verifiedHashes := [dg], verifiedPaths := [A],
          mismatched := [], missing := [], untracked := [], errors := [] }
        ⟨A, rn, sz0, mt0, dg, DEFAULT_HASH_ALGO, ls⟩ from rfl]
    rw [missingStep_eq]
    have hmc : missCond env u e
        { stats := { scanned := 1, excluded := 0, verified := 1, mismatched := 0,
                     missing := 0, untracked := 0, errors := 0, db_entries := 1 },
          verifiedHashes := [dg], verifiedPaths := [A],
          mismatched := [], missing := [], untracked := [], errors := [] }
        ⟨A, rn, sz0, mt0, dg, DEFAULT_HASH_ALGO, ls⟩ = false := by
      simp [missCond]
    rw [hmc]
    simp
  rw [hrun]
  refine ⟨rfl, rfl, rfl, rfl, rfl, rfl⟩

theorem move_tolerance_verify_witness :
    ("/r/old/p.jpg" : String) ≠ "/r/new/p.jpg"
    ∧ (verify_files ⟨[], [], true, fun _ => ""⟩ (fun _ => true) (fun p => p == "/r/new/p.jpg")
        [⟨"/r/old/p.jpg", "p.jpg", 5, 100, "h1", DEFAULT_HASH_ALGO, 1⟩]
        [⟨"/r/new/p.jpg", "p.jpg", .ok (5, 200), .ok "h1"⟩]).stats.verified = 1 :=
  ⟨by decide,
   (move_tolerance_verify ⟨[], [], true, fun _ => ""⟩ (fun _ => true)
     (fun p => p == "/r/new/p.jpg") "/r/old/p.jpg" "/r/new/p.jpg" "p.jpg" "p.jpg" "h1"
     5 100 1 5 200 (by decide) (by decide) (by decide) (by decide)).1⟩

end VerifyIntegrity

namespace VerifyIntegrity

lemma touchLastSeen_path_mem {l : List FileRecord} {r : FileRecord} (q : String) (t : Int)
    (h : r ∈ l) : ∃ r', r' ∈ touchLastSeen l q t ∧ r'.path = r.path := by
  refine ⟨if (r.path == q) = true then { r with last_seen := t } else r, ?_, ?_⟩
  · exact List.mem_map_of_mem _ h
  · split <;> rfl

lemma upsert_path_mem {l : List FileRecord} {r : FileRecord} (q : FileRecord)
    (h : r ∈ l) : ∃ r', r' ∈ upsert l q ∧ r'.path = r.path := by
  induction l with
  | nil => cases h
  | cons a rest ih =>
      by_cases ha : a.path = q.path
      · rcases List.mem_cons.mp h with h' | h'
        · exact ⟨q, by simp [upsert, ha], by rw [h', ← ha]⟩
        · exact ⟨r, by simp [upsert, ha, h'], rfl⟩
      · rcases List.mem_cons.mp h with h' | h'
        · exact ⟨a, by simp [upsert, ha], by rw [h']⟩
        · obtain ⟨r', hr', hp⟩ := ih h'
          refine ⟨r', ?_, hp⟩
          simp [upsert, ha]
          exact Or.inr hr'

lemma indexStep_store_cases (env : Env) (t : Int) (s : IndexState) (f : FsFile) :
    (indexStep env t s f).store = s.store
    ∨ (indexStep env t s f).store = touchLastSeen s.store f.path t
    ∨ ∃ q, q.path = f.path ∧ (indexStep env t s f).store = upsert s.store q := by
  simp only [indexStep, indexHashBranch]
  repeat' split
  all_goals first
    | exact Or.inl rfl
    | exact Or.inr (Or.inl rfl)
    | exact Or.inr (Or.inr ⟨_, rfl, rfl⟩)

lemma indexStep_path_mem (env : Env) (t : Int) (s : IndexState) (f : FsFile) (p : String)
    (h : ∃ r, r ∈ s.store ∧ r.path = p) :
    ∃ r', r' ∈ (indexStep env t s f).store ∧ r'.path = p := by
  obtain ⟨r, hr, hp⟩ := h
  rcases indexStep_store_cases env t s f with hst | hst | ⟨q, _, hst⟩
  · exact ⟨r, hst ▸ hr, hp⟩
  · obtain ⟨r', h1, h2⟩ := touchLastSeen_path_mem f.path t hr
    exact ⟨r', hst ▸ h1, h2.trans hp⟩
  · obtain ⟨r', h1, h2⟩ := upsert_path_mem q hr
    exact ⟨r', hst ▸ h1, h2.trans hp⟩

lemma index_fold_path_mem (env : Env) (t : Int) (fs : List FsFile) :
    ∀ s p, (∃ r, r ∈ s.store ∧ r.path = p) →
      ∃ r', r' ∈ (fs.foldl (indexStep env t) s).store ∧ r'.path = p := by
  induction fs with
  | nil => exact fun s p h => h
  | cons g rest ih =>
      intro s p h
      exact ih (indexStep env t s g) p (indexStep_path_mem env t s g p h)

/-- Claim C8: an index run never removes a record from the store; every
stored path before the run is still present on some record after it (a
verify run takes the store as an immutable read-only argument). -/
theorem index_never_deletes_records (env : Env) (t : Int) (store : List FileRecord)
    (fs : List FsFile) (r : FileRecord) (h : r ∈ store) :
    ∃ r', r' ∈ (index_files env t store fs).store ∧ r'.path = r.path := by
  unfold index_files
  exact index_fold_path_mem env t fs (initIndexState store) r.path ⟨r, h, rfl⟩

theorem index_never_deletes_records_witness :
    ∃ r', r' ∈ (index_files ⟨[], [], true, fun _ => ""⟩ 9
        [⟨"/r/a.txt", "a.txt", 5, 100, "h1", "sha256", 1⟩]
        [⟨"/r/a.txt", "a.txt", .ok (6, 300), .ok "h2"⟩]).store
      ∧ r'.path = "/r/a.txt" :=
  index_never_deletes_records ⟨[], [], true, fun _ => ""⟩ 9
    [⟨"/r/a.txt", "a.txt", 5, 100, "h1", "sha256", 1⟩]
    [⟨"/r/a.txt", "a.txt", .ok (6, 300), .ok "h2"⟩]
    ⟨"/r/a.txt", "a.txt", 5, 100, "h1", "sha256", 1⟩ (by decide)

end VerifyIntegrity

namespace VerifyIntegrity

lemma isOkStat_exists {f : FsFile} (h : isOkStat f = true) :
    ∃ sz mt : Int, f.statResult = .ok (sz, mt) := by
  unfold isOkStat at h
  cases hh : f.statResult with
  | ok p =>
      obtain ⟨a, b⟩ := p
      exact ⟨a, b, rfl⟩
  | error e => rw [hh] at h; cases h

lemma isOkHash_exists {f : FsFile} (h : isOkHash f = true) :
    ∃ d, f.hashResult = .ok d := by
  unfold isOkHash at h
  cases hh : f.hashResult with
  | ok d => exact ⟨d, rfl⟩
  | error e => rw [hh] at h; cases h

lemma indexStep_select_other (env : Env) (t : Int) (s : IndexState) (f : FsFile)
    {p : String} (h : p ≠ f.path) :
    selectByPath (indexStep env t s f).store p = selectByPath s.store p := by
  rcases indexStep_store_cases env t s f with hst | hst | ⟨q, hq, hst⟩
  · rw [hst]
  · rw [hst, touchLastSeen_selectByPath_other t h]
  · rw [hst, upsert_selectByPath_other _ _ (hq ▸ h)]

lemma indexStep_establishes (env : Env) (t : Int) (s : IndexState) (f : FsFile)
    (sz mt : Int)
    (h1 : env.excludedPaths.contains f.path = false)
    (h2 : env.excludeExts.contains (env.suffixLower f.path) = false)
    (h3 : f.statResult = .ok (sz, mt))
    (h4 : isOkHash f = true) :
    ∃ r, selectByPath (indexStep env t s f).store f.path = some r
      ∧ r.size = sz ∧ r.mtime_ns = mt := by
  have h1' : f.path ∉ env.excludedPaths := by simpa using h1
  have h2' : env.suffixLower f.path ∉ env.excludeExts := by simpa using h2
  obtain ⟨d, hd⟩ := isOkHash_exists h4
  cases hsel : selectByPath s.store f.path with
  | some r0 =>
      by_cases hfp : (r0.size == sz && r0.mtime_ns == mt) = true
      · have hsz : r0.size = sz := by
          have := (Bool.and_eq_true _ _).mp hfp
          exact eq_of_beq this.1
        have hmt : r0.mtime_ns = mt := by
          have := (Bool.and_eq_true _ _).mp hfp
          exact eq_of_beq this.2
        have hst : (indexStep env t s f).store = touchLastSeen s.store f.path t := by
          simp [indexStep, h1', h2', h3, hsel, hsz, hmt]
        rw [hst, touchLastSeen_selectByPath_self, hsel]
        exact ⟨{ r0 with last_seen := t }, rfl, hsz, hmt⟩
      · have hst : (indexStep env t s f).store
            = upsert s.store ⟨f.path, f.filename, sz, mt, d, DEFAULT_HASH_ALGO, t⟩ := by
          simp [indexStep, indexHashBranch, h1', h2', h3, hsel, hfp, hd]
        rw [hst]
        exact ⟨_, upsert_selectByPath_self s.store _, rfl, rfl⟩
  | none =>
      have hst : (indexStep env t s f).store
          = upsert s.store ⟨f.path, f.filename, sz, mt, d, DEFAULT_HASH_ALGO, t⟩ := by
        simp [indexStep, indexHashBranch, h1', h2', h3, hsel, hd]
      rw [hst]
      exact ⟨_, upsert_selectByPath_self s.store _, rfl, rfl⟩

lemma index_fold_select_frozen (env : Env) (t : Int) (fs : List FsFile) :
    ∀ (s : IndexState) (p : String), (∀ f ∈ fs, f.path ≠ p) →
      selectByPath ((fs.foldl (indexStep env t) s).store) p = selectByPath s.store p := by
  induction fs with
  | nil => exact fun s p _ => rfl
  | cons g rest ih =>
      intro s p h
      rw [List.foldl_cons, ih (indexStep env t s g) p (fun f hf => h f (List.mem_cons_of_mem g hf)),
        indexStep_select_other env t s g (fun hc => h g (List.mem_cons_self g rest) hc.symm)]

lemma index_run_establishes (env : Env) (t : Int) (fs : List FsFile) :
    ∀ s : IndexState, (fs.map FsFile.path).Nodup →
      (∀ f ∈ fs, isOkHash f = true) →
      ∀ f ∈ fs, env.excludedPaths.contains f.path = false →
        env.excludeExts.contains (env.suffixLower f.path) = false →
        recordMatches ((fs.foldl (indexStep env t) s).store) f := by
  induction fs with
  | nil => intro s _ _ f hf; cases hf
  | cons g rest ih =>
      intro s hnd hok f hf h1 h2
      rw [List.foldl_cons]
      have hnd' : (g.path :: rest.map FsFile.path).Nodup := by
        rw [← List.map_cons]
        exact hnd
      have hnd1 : g.path ∉ rest.map FsFile.path := (List.nodup_cons.mp hnd').1
      have hnd2 : (rest.map FsFile.path).Nodup := (List.nodup_cons.mp hnd').2
      rcases List.mem_cons.mp hf with hfg | hfr
      · subst hfg
        intro sz mt hstat
        obtain ⟨r, hr, hsz, hmt⟩ := indexStep_establishes env t s f sz mt h1 h2 hstat
          (hok f (List.mem_cons_self f rest))
        have hfrozen : ∀ f' ∈ rest, f'.path ≠ f.path := by
          intro f' hf' hc
          exact hnd1 (hc ▸ List.mem_map_of_mem FsFile.path hf')
        rw [index_fold_select_frozen env t rest (indexStep env t s f) f.path hfrozen]
        exact ⟨r, hr, hsz, hmt⟩
      · exact ih (indexStep env t s g) hnd2
          (fun f' hf' => hok f' (List.mem_cons_of_mem g hf')) f hfr h1 h2

lemma touchLastSeen_recordMatches {store : List FileRecord} {f : FsFile}
    (q : String) (t : Int) (h : recordMatches store f) :
    recordMatches (touchLastSeen store q t) f := by
  intro sz mt hstat
  obtain ⟨r, hr, hsz, hmt⟩ := h sz mt hstat
  by_cases hpq : f.path = q
  · subst hpq
    rw [touchLastSeen_selectByPath_self, hr]
    exact ⟨{ r with last_seen := t }, rfl, hsz, hmt⟩
  · rw [touchLastSeen_selectByPath_other t hpq]
    exact ⟨r, hr, hsz, hmt⟩

end VerifyIntegrity

namespace VerifyIntegrity

lemma index_run_all_unchanged (env : Env) (t : Int) (fs : List FsFile) :
    ∀ s : IndexState,
      (∀ f ∈ fs, env.excludedPaths.contains f.path = false →
        env.excludeExts.contains (env.suffixLower f.path) = false →
        isOkStat f = true ∧ recordMatches s.store f) →
      (fs.foldl (indexStep env t) s).stats.hashed_new = s.stats.hashed_new
      ∧ (fs.foldl (indexStep env t) s).stats.hashed_updated = s.stats.hashed_updated
      ∧ (fs.foldl (indexStep env t) s).stats.unchanged + s.stats.scanned
          = (fs.foldl (indexStep env t) s).stats.scanned + s.stats.unchanged
      ∧ (fs.foldl (indexStep env t) s).store.map coreFields = s.store.map coreFields := by
  induction fs with
  | nil => exact fun s _ => ⟨rfl, rfl, Nat.add_comm _ _, rfl⟩
  | cons g rest ih =>
      intro s hyp
      rw [List.foldl_cons]
      by_cases hc1 : env.excludedPaths.contains g.path = true
      · have hc1' : g.path ∈ env.excludedPaths := by simpa using hc1
        have hstep : indexStep env t s g
            = { s with stats := { s.stats with excluded := s.stats.excluded + 1 } } := by
          simp [indexStep, hc1']
        rw [hstep]
        exact ih { s with stats := { s.stats with excluded := s.stats.excluded + 1 } }
          (fun f hf h1 h2 => hyp f (List.mem_cons_of_mem g hf) h1 h2)
      · by_cases hc2 : env.excludeExts.contains (env.suffixLower g.path) = true
        · have hc1' : g.path ∉ env.excludedPaths := by simpa using hc1
          have hc2' : env.suffixLower g.path ∈ env.excludeExts := by simpa using hc2
          have hstep : indexStep env t s g
              = { s with stats := { s.stats with excluded := s.stats.excluded + 1 } } := by
            simp [indexStep, hc1', hc2']
          rw [hstep]
          exact ih { s with stats := { s.stats with excluded := s.stats.excluded + 1 } }
            (fun f hf h1 h2 => hyp f (List.mem_cons_of_mem g hf) h1 h2)
        · have hc1f : env.excludedPaths.contains g.path = false := by simpa using hc1
          have hc2f : env.excludeExts.contains (env.suffixLower g.path) = false := by
            simpa using hc2
          obtain ⟨hstat_ok, hrm⟩ := hyp g (List.mem_cons_self g rest) hc1f hc2f
          obtain ⟨sz, mt, hstat⟩ := isOkStat_exists hstat_ok
          obtain ⟨r, hsel, hsz, hmt⟩ := hrm sz mt hstat
          have hc1' : g.path ∉ env.excludedPaths := by simpa using hc1
          have hc2' : env.suffixLower g.path ∉ env.excludeExts := by simpa using hc2
          have hstep : indexStep env t s g
              = { s with
                  store := touchLastSeen s.store g.path t,
                  stats := { s.stats with
                             scanned := s.stats.scanned + 1,
                             unchanged := s.stats.unchanged + 1 } } := by
            simp [indexStep, hc1', hc2', hstat, hsel, hsz, hmt]
          rw [hstep]
          obtain ⟨i1, i2, i3, i4⟩ := ih
            { s with
              store := touchLastSeen s.store g.path t,
              stats := { s.stats with
                         scanned := s.stats.scanned + 1,
                         unchanged := s.stats.unchanged + 1 } }
            (fun f hf h1 h2 =>
              ⟨(hyp f (List.mem_cons_of_mem g hf) h1 h2).1,
               touchLastSeen_recordMatches g.path t
                 (hyp f (List.mem_cons_of_mem g hf) h1 h2).2⟩)
          refine ⟨i1, i2, ?_, ?_⟩
          · have i3' : (rest.foldl (indexStep env t)
                { s with
                  store := touchLastSeen s.store g.path t,
                  stats := { s.stats with
                             scanned := s.stats.scanned + 1,
                             unchanged := s.stats.unchanged + 1 } }).stats.unchanged
                  + (s.stats.scanned + 1)
                = (rest.foldl (indexStep env t)
                    { s with
                      store := touchLastSeen s.store g.path t,
                      stats := { s.stats with
                                 scanned := s.stats.scanned + 1,
                                 unchanged := s.stats.unchanged + 1 } }).stats.scanned
                  + (s.stats.unchanged + 1) := i3
            omega
          · have i4' : (rest.foldl (indexStep env t)
                { s with
                  store := touchLastSeen s.store g.path t,
                  stats := { s.stats with
                             scanned := s.stats.scanned + 1,
                             unchanged := s.stats.unchanged + 1 } }).store.map coreFields
                = (touchLastSeen s.store g.path t).map coreFields := i4
            rw [i4', touchLastSeen_map_coreFields]

/-- Claim C6 (amended): indexing twice over the same walked sequence,
each path appearing once and every walked non-excluded file stat-ing and
hashing successfully, yields on the second run hashed_new = 0,
hashed_updated = 0, unchanged equal to scanned, and leaves every stored
record's path, filename, size, mtime, hash and hash_algo unchanged. -/
theorem index_idempotent_rerun (env : Env) (t1 t2 : Int) (store0 : List FileRecord)
    (fs : List FsFile)
    (hnd : (fs.map FsFile.path).Nodup)
    (hok : ∀ f ∈ fs, isOkStat f = true ∧ isOkHash f = true) :
    (index_files env t2 (index_files env t1 store0 fs).store fs).stats.hashed_new = 0
    ∧ (index_files env t2 (index_files env t1 store0 fs).store fs).stats.hashed_updated = 0
    ∧ (index_files env t2 (index_files env t1 store0 fs).store fs).stats.unchanged
        = (index_files env t2 (index_files env t1 store0 fs).store fs).stats.scanned
    ∧ (index_files env t2 (index_files env t1 store0 fs).store fs).store.map coreFields
        = (index_files env t1 store0 fs).store.map coreFields := by
  have hyp : ∀ f ∈ fs, env.excludedPaths.contains f.path = false →
      env.excludeExts.contains (env.suffixLower f.path) = false →
      isOkStat f = true
      ∧ recordMatches (initIndexState (index_files env t1 store0 fs).store).store f := by
    intro f hf h1 h2
    refine ⟨(hok f hf).1, ?_⟩
    exact index_run_establishes env t1 fs (initIndexState store0) hnd
      (fun f' hf' => (hok f' hf').2) f hf h1 h2
  obtain ⟨i1, i2, i3, i4⟩ := index_run_all_unchanged env t2 fs
    (initIndexState (index_files env t1 store0 fs).store) hyp
  refine ⟨i1, i2, ?_, i4⟩
  have i3' : (index_files env t2 (index_files env t1 store0 fs).store fs).stats.unchanged + 0
      = (index_files env t2 (index_files env t1 store0 fs).store fs).stats.scanned + 0 := i3
  omega

theorem index_idempotent_rerun_witness :
    (index_files ⟨[], [], true, fun _ => ""⟩ 1
        (index_files ⟨[], [], true, fun _ => ""⟩ 0 []
          [⟨"/r/a.txt", "a.txt", .ok (5, 100), .ok "h1"⟩]).store
        [⟨"/r/a.txt", "a.txt", .ok (5, 100), .ok "h1"⟩]).stats.hashed_new = 0 :=
  (index_idempotent_rerun ⟨[], [], true, fun _ => ""⟩ 0 1 []
    [⟨"/r/a.txt", "a.txt", .ok (5, 100), .ok "h1"⟩]
    (by decide) (by decide)).1

/-- Claim C6 (counterexample): a file whose stat fails in both runs is
scanned but counted as an error, so the second run reports scanned = 1
with unchanged = 0, contradicting the claim that unchanged equals the
number of scanned non-excluded files. -/
theorem index_idempotence_error_cex :
    (index_files ⟨[], [], true, fun _ => ""⟩ 1
        (index_files ⟨[], [], true, fun _ => ""⟩ 0 []
          [⟨"/r/bad.txt", "bad.txt", .error "denied", .error "denied"⟩]).store
        [⟨"/r/bad.txt", "bad.txt", .error "denied", .error "denied"⟩]).stats.scanned = 1
    ∧ (index_files ⟨[], [], true, fun _ => ""⟩ 1
        (index_files ⟨[], [], true, fun _ => ""⟩ 0 []
          [⟨"/r/bad.txt", "bad.txt", .error "denied", .error "denied"⟩]).store
        [⟨"/r/bad.txt", "bad.txt", .error "denied", .error "denied"⟩]).stats.unchanged = 0
    ∧ (index_files ⟨[], [], true, fun _ => ""⟩ 1
        (index_files ⟨[], [], true, fun _ => ""⟩ 0 []
          [⟨"/r/bad.txt", "bad.txt", .error "denied", .error "denied"⟩]).store
        [⟨"/r/bad.txt", "bad.txt", .error "denied", .error "denied"⟩]).stats.hashed_new = 0
    ∧ (index_files ⟨[], [], true, fun _ => ""⟩ 1
        (index_files ⟨[], [], true, fun _ => ""⟩ 0 []
          [⟨"/r/bad.txt", "bad.txt", .error "denied", .error "denied"⟩]).store
        [⟨"/r/bad.txt", "bad.txt", .error "denied", .error "denied"⟩]).stats.hashed_updated = 0 := by
  refine ⟨by decide, by decide, by decide, by decide⟩

end VerifyIntegrity
